import Mathlib

/-!
Shallow embedding of the tMovies watchlist subsystem.

Sources embedded here:
- `watchlistContext.tsx` (the `WatchlistProvider` component): the canonical
  in-memory collection (`items : WatchlistItem[]`) and the operations
  `addToWatchlist`, `removeFromWatchlist`, `isInWatchlist`, `getCount`,
  `getSorted`, `getFiltered` exposed through the context value.
- `watchlistUtils.ts` (reproduced verbatim in `specs/WATCHLIST_SPEC.md`):
  `loadWatchlist`, `saveWatchlist`, `clearWatchlistStorage` over the single
  localStorage entry under the fixed key `tmovies_watchlist`.
- `types.d.ts`: the `IMovie` and `WatchlistItem` record shapes.

Modelling conventions:
- TypeScript strings are Lean `String`; the numeric `addedAt` timestamp is an
  `Int` (epoch milliseconds; the code only subtracts and compares them).
- `Date.now()` is passed in explicitly as a `now : Int` argument.
- The localStorage cell under the watchlist key is `Option StoredVal`: a
  stored string either parses as JSON to some `JSValue` (`StoredVal.jsonText`)
  or makes `JSON.parse` throw (`StoredVal.badText`).  `JSON.stringify` of a
  `WatchlistItem[]` produces a string whose parse is `encodeItems items`, so
  `saveWatchlist` stores `StoredVal.jsonText (encodeItems items)`.
- A `healthy : Bool` flag on the storage state models whether the
  localStorage calls themselves throw (quota exceeded, storage disabled);
  the try/catch blocks in `watchlistUtils.ts` swallow such failures.
-/

/-- The `"movie" | "tv"` union from `types.d.ts`. -/
inductive MediaType where
  | movie
  | tv
deriving DecidableEq, Repr

/-- The `IMovie` interface from `types.d.ts`. -/
structure IMovie where
  id : String
  poster_path : String
  original_title : String
  name : String
  overview : String
  backdrop_path : String
deriving DecidableEq, Repr

/-- The `WatchlistItem` interface from `types.d.ts`. -/
structure WatchlistItem where
  id : String
  type : MediaType
  title : String
  poster_path : String
  addedAt : Int
deriving DecidableEq, Repr

/-- A JSON value, as produced by the `JSON.parse` builtin.  Object fields are
kept in their textual order (which is the insertion order that
`JSON.stringify` emits). -/
inductive JSValue where
  | null
  | bool (b : Bool)
  | num (n : Int)
  | str (s : String)
  | arr (vs : List JSValue)
  | obj (fields : List (String × JSValue))
deriving Repr

/-- The string serialization of a `MediaType`, as it appears in the persisted
JSON. -/
def MediaType.toStr : MediaType → String
  | .movie => "movie"
  | .tv => "tv"

/-- Parse a `MediaType` back from its string form. -/
def MediaType.ofStr : String → Option MediaType
  | "movie" => some .movie
  | "tv" => some .tv
  | _ => none

/-- The JSON object `JSON.stringify` produces for one `WatchlistItem`
(field order is the declaration order of the object literal in
`addToWatchlist`). -/
def encodeItem (it : WatchlistItem) : JSValue :=
  .obj [("id", .str it.id), ("type", .str it.type.toStr),
        ("title", .str it.title), ("poster_path", .str it.poster_path),
        ("addedAt", .num it.addedAt)]

/-- The JSON array `JSON.stringify` produces for a `WatchlistItem[]`. -/
def encodeItems (items : List WatchlistItem) : JSValue :=
  .arr (items.map encodeItem)

/-- Read one `WatchlistItem` back from a JSON value, succeeding exactly on
the record shape `encodeItem` produces.  This is the "expected record shape"
of the persisted snapshot. -/
def decodeItem : JSValue → Option WatchlistItem
  | .obj [("id", .str i), ("type", .str ty), ("title", .str t),
          ("poster_path", .str p), ("addedAt", .num n)] =>
      (MediaType.ofStr ty).map fun k => ⟨i, k, t, p, n⟩
  | _ => none

/-- Read a list of `WatchlistItem`s back from a list of JSON values,
failing if any element fails. -/
def decodeItemList : List JSValue → Option (List WatchlistItem)
  | [] => some []
  | v :: vs =>
    match decodeItem v, decodeItemList vs with
    | some it, some its => some (it :: its)
    | _, _ => none

/-- Read a whole `WatchlistItem[]` back from a JSON value. -/
def decodeItems : JSValue → Option (List WatchlistItem)
  | .arr vs => decodeItemList vs
  | _ => none

/-- A string held in the localStorage cell, classified by what `JSON.parse`
does to it: `jsonText v` is a string that parses to the JSON value `v`;
`badText s` is a string on which `JSON.parse` throws. -/
inductive StoredVal where
  | jsonText (v : JSValue)
  | badText (s : String)

/-- The state of the storage backend: whether localStorage calls succeed, and
the contents of the single entry under the key `tmovies_watchlist`
(`none` when the entry is absent). -/
structure StorageState where
  healthy : Bool
  cell : Option StoredVal

/-- The fixed storage key `WATCHLIST_KEY` from `watchlistUtils.ts`. -/
def WATCHLIST_KEY : String := "tmovies_watchlist"

/-- `loadWatchlist` from `watchlistUtils.ts`: returns the raw result of
`JSON.parse(stored) as WatchlistItem[]` — an unchecked cast, no shape
validation.  If the entry is absent, or `JSON.parse` (or localStorage itself)
throws, the catch branch returns the empty array. -/
def loadWatchlist (σ : StorageState) : JSValue :=
  if σ.healthy then
    match σ.cell with
    | none => .arr []
    | some (.badText _) => .arr []
    | some (.jsonText v) => v
  else .arr []

/-- `saveWatchlist` from `watchlistUtils.ts`: `localStorage.setItem(KEY,
JSON.stringify(items))`; a throwing write is caught and logged, leaving the
cell unchanged. -/
def saveWatchlist (items : List WatchlistItem) (σ : StorageState) : StorageState :=
  if σ.healthy then { σ with cell := some (.jsonText (encodeItems items)) }
  else σ

/-- `clearWatchlistStorage` from `watchlistUtils.ts`:
`localStorage.removeItem(KEY)`; a throwing call is caught and logged. -/
def clearWatchlistStorage (σ : StorageState) : StorageState :=
  if σ.healthy then { σ with cell := none }
  else σ

/-- The `newItem` object literal built inside `addToWatchlist`:
`title: movie.original_title || movie.name` — the JS `||` falls back
whenever the left operand is falsy, which for strings means empty. -/
def mkWatchlistItem (movie : IMovie) (type : MediaType) (now : Int) : WatchlistItem :=
  { id := movie.id
    type := type
    title := if movie.original_title == "" then movie.name else movie.original_title
    poster_path := movie.poster_path
    addedAt := now }

/-- The `setItems` updater of `addToWatchlist` in `WatchlistProvider`:
if some existing item has the candidate's id the previous list is returned
unchanged, otherwise the new item is prepended. -/
def addToWatchlist (movie : IMovie) (type : MediaType) (now : Int)
    (prev : List WatchlistItem) : List WatchlistItem :=
  if prev.any fun item => item.id == movie.id then prev
  else mkWatchlistItem movie type now :: prev

/-- The `setItems` updater of `removeFromWatchlist`:
`prev.filter((item) => item.id !== id)`. -/
def removeFromWatchlist (id : String) (prev : List WatchlistItem) : List WatchlistItem :=
  prev.filter fun item => item.id != id

/-- `isInWatchlist` from `WatchlistProvider`: `items.some((item) => item.id === id)`. -/
def isInWatchlist (items : List WatchlistItem) (id : String) : Bool :=
  items.any fun item => item.id == id

/-- `getCount` from `WatchlistProvider`: `items.length`. -/
def getCount (items : List WatchlistItem) : Nat :=
  items.length

/-- The `"all" | "movie" | "tv"` filter union of `getFiltered`. -/
inductive WatchFilter where
  | all
  | movie
  | tv
deriving DecidableEq, Repr

/-- Whether an item's `type` field equals the (non-`all`) filter string, as
tested by `item.type === filter` in `getFiltered`. -/
def filterMatches (f : WatchFilter) (k : MediaType) : Bool :=
  match f, k with
  | .movie, .movie => true
  | .tv, .tv => true
  | _, _ => false

/-- `getFiltered` from `WatchlistProvider`: returns `items` itself for
`"all"`, otherwise `items.filter((item) => item.type === filter)`. -/
def getFiltered (items : List WatchlistItem) (filter : WatchFilter) : List WatchlistItem :=
  match filter with
  | .all => items
  | f => items.filter fun item => filterMatches f item.type

/-- The field names of the context `value` object constructed by
`WatchlistProvider` (its operation surface), in source order. -/
def watchlistContextValueKeys : List String :=
  ["items", "addToWatchlist", "removeFromWatchlist", "isInWatchlist",
   "getCount", "getSorted", "getFiltered"]

/-- Insert `x` into an already comparator-sorted list, before the first
element it does not have to follow.  Together with `jsSortBy` this computes
the unique stable sorted rearrangement — the observable behavior of
`Array.prototype.sort` (stability is required by the language standard) for a
consistent comparator. -/
def jsInsert (cmp : α → α → Int) (x : α) : List α → List α
  | [] => [x]
  | y :: ys => if cmp x y ≤ 0 then x :: y :: ys else y :: jsInsert cmp x ys

/-- Stable comparator sort: the observable behavior of
`[...itemsToSort].sort(cmp)` for a consistent comparator `cmp`. -/
def jsSortBy (cmp : α → α → Int) : List α → List α
  | [] => []
  | x :: xs => jsInsert cmp x (jsSortBy cmp xs)

/-- Lexicographic three-way comparison of weight lists, valued in
`{-1, 0, 1}`. -/
def lexCompareNat : List Nat → List Nat → Int
  | [], [] => 0
  | [], _ :: _ => -1
  | _ :: _, [] => 1
  | a :: as, b :: bs =>
    if a < b then -1
    else if b < a then 1
    else lexCompareNat as bs

/-- The primary collation weights of `s` for ASCII text: its lowercased code
points (the case-insensitive normalized label). -/
def lowerKey (s : String) : List Nat := s.data.map fun c => c.toLower.toNat

/-- The case weights of `s`: per character, `0` for lowercase (and caseless)
characters and `1` for uppercase, so lowercase orders before uppercase at the
tie-break level. -/
def caseKey (s : String) : List Nat := s.data.map fun c => if c.isUpper then 1 else 0

/-- Model of the `String.prototype.localeCompare` builtin under the default
locale (ECMA-402 collator, usage "sort", sensitivity "variant") for ASCII
text: a primary pass compares the lowercased code points; only when the
primary weights are equal does a case pass break the tie, ordering lowercase
before uppercase (so `localeCompare "a" "A" = -1` and
`localeCompare "Apple" "apple" = 1`, as the default builtin returns nonzero
for strings differing only in case). -/
def localeCompare (a b : String) : Int :=
  if lexCompareNat (lowerKey a) (lowerKey b) = 0 then
    lexCompareNat (caseKey a) (caseKey b)
  else lexCompareNat (lowerKey a) (lowerKey b)

/-- The `"date-new" | "date-old" | "title"` union of `getSorted`. -/
inductive SortBy where
  | dateNew
  | dateOld
  | title
deriving DecidableEq, Repr

/-- `getSorted` from `WatchlistProvider`: copies the input
(`const sorted = [...itemsToSort]`) and sorts the copy with one of the three
comparators `(a, b) => b.addedAt - a.addedAt`,
`(a, b) => a.addedAt - b.addedAt`, or
`(a, b) => a.title.localeCompare(b.title)`.  The switch's `default` arm is
unreachable: the TypeScript union admits exactly these three values. -/
def getSorted (itemsToSort : List WatchlistItem) (sortBy : SortBy) : List WatchlistItem :=
  match sortBy with
  | .dateNew => jsSortBy (fun a b => b.addedAt - a.addedAt) itemsToSort
  | .dateOld => jsSortBy (fun a b => a.addedAt - b.addedAt) itemsToSort
  | .title => jsSortBy (fun a b => localeCompare a.title b.title) itemsToSort

/-- The full observable state of one `WatchlistProvider` lifecycle: the
in-memory `items` state plus the storage backend. -/
structure ProviderState where
  items : List WatchlistItem
  store : StorageState

/-- One complete add interaction: the `setItems` updater of `addToWatchlist`
commits, then the `useEffect` on `[items]` persists the new list. -/
def addCmd (movie : IMovie) (type : MediaType) (now : Int)
    (st : ProviderState) : ProviderState :=
  { items := addToWatchlist movie type now st.items
    store := saveWatchlist (addToWatchlist movie type now st.items) st.store }

/-- One complete remove interaction, analogous to `addCmd`. -/
def removeCmd (id : String) (st : ProviderState) : ProviderState :=
  { items := removeFromWatchlist id st.items
    store := saveWatchlist (removeFromWatchlist id st.items) st.store }

/-- The Facade read `isInWatchlist` over the full provider state: it reads
only the in-memory items, never storage. -/
def isInWatchlistS (st : ProviderState) (id : String) : Bool :=
  isInWatchlist st.items id

/-- The Facade read `getCount` over the full provider state. -/
def getCountS (st : ProviderState) : Nat :=
  getCount st.items

/-- The Facade read `getFiltered` over the full provider state. -/
def getFilteredS (st : ProviderState) (f : WatchFilter) : List WatchlistItem :=
  getFiltered st.items f

/-- Sample movie descriptor used in concrete witnesses (from the repository's
own tests). -/
def mFightClub : IMovie := ⟨"550", "/p.jpg", "Fight Club", "Fight Club", "", ""⟩

/-- Sample stored item corresponding to `mFightClub`. -/
def iFightClub : WatchlistItem := ⟨"550", .movie, "Fight Club", "/p.jpg", 3⟩

/-- Second sample stored item (a TV entry, from the repository's own tests). -/
def iBreakingBad : WatchlistItem := ⟨"1399", .tv, "Breaking Bad", "/g.jpg", 5⟩

/-- A descriptor whose primary title field is empty but whose fallback name
field is not. -/
def mOnlyName : IMovie := ⟨"77", "", "", "Chere", "", ""⟩

/-- A descriptor with both title fields empty. -/
def mNoLabels : IMovie := ⟨"99", "", "", "", "", ""⟩

/-- Sample item whose title differs from `iLowerApple` only in case. -/
def iApple : WatchlistItem := ⟨"p1", .movie, "Apple", "", 1⟩

/-- Sample item whose title differs from `iApple` only in case. -/
def iLowerApple : WatchlistItem := ⟨"p2", .movie, "apple", "", 2⟩

/-- The collections reachable from the empty collection (the provider's
`useState` initial value) by any sequence of add and remove interactions. -/
inductive ReachableWatchlist : List WatchlistItem → Prop where
  | empty : ReachableWatchlist []
  | add (movie : IMovie) (k : MediaType) (now : Int) {s : List WatchlistItem} :
      ReachableWatchlist s → ReachableWatchlist (addToWatchlist movie k now s)
  | remove (i : String) {s : List WatchlistItem} :
      ReachableWatchlist s → ReachableWatchlist (removeFromWatchlist i s)

theorem mem_jsInsert (cmp : α → α → Int) (x : α) (l : List α) (a : α) :
    a ∈ jsInsert cmp x l ↔ a = x ∨ a ∈ l := by
  induction l with
  | nil => simp [jsInsert]
  | cons y ys ih =>
    by_cases h : cmp x y ≤ 0
    · simp [jsInsert, h]
    · simp [jsInsert, h, ih]
      tauto

theorem jsInsert_perm (cmp : α → α → Int) (x : α) (l : List α) :
    List.Perm (jsInsert cmp x l) (x :: l) := by
  induction l with
  | nil => simp [jsInsert]
  | cons y ys ih =>
    by_cases h : cmp x y ≤ 0
    · simp [jsInsert, h]
    · simp only [jsInsert, h, if_false]
      exact List.Perm.trans (List.Perm.cons y ih) (List.Perm.swap x y ys)

theorem jsSortBy_perm (cmp : α → α → Int) (l : List α) :
    List.Perm (jsSortBy cmp l) l := by
  induction l with
  | nil => simp [jsSortBy]
  | cons x xs ih =>
    exact List.Perm.trans (jsInsert_perm cmp x (jsSortBy cmp xs)) (List.Perm.cons x ih)

theorem jsInsert_pairwise (cmp : α → α → Int)
    (htot : ∀ a b, ¬ cmp a b ≤ 0 → cmp b a ≤ 0)
    (htrans : ∀ a b c, cmp a b ≤ 0 → cmp b c ≤ 0 → cmp a c ≤ 0)
    (x : α) (l : List α) (h : l.Pairwise fun a b => cmp a b ≤ 0) :
    (jsInsert cmp x l).Pairwise fun a b => cmp a b ≤ 0 := by
  induction l with
  | nil => simp [jsInsert]
  | cons y ys ih =>
    rw [List.pairwise_cons] at h
    obtain ⟨hy, hys⟩ := h
    by_cases hxy : cmp x y ≤ 0
    · simp only [jsInsert, hxy, if_true]
      refine List.Pairwise.cons ?_ (List.Pairwise.cons hy hys)
      intro z hz
      rcases List.mem_cons.mp hz with h1 | h2
      · exact h1 ▸ hxy
      · exact htrans x y z hxy (hy z h2)
    · simp only [jsInsert, hxy, if_false]
      refine List.Pairwise.cons ?_ (ih hys)
      intro z hz
      rcases (mem_jsInsert cmp x ys z).mp hz with h1 | h2
      · exact h1 ▸ htot x y hxy
      · exact hy z h2

theorem jsSortBy_pairwise (cmp : α → α → Int)
    (htot : ∀ a b, ¬ cmp a b ≤ 0 → cmp b a ≤ 0)
    (htrans : ∀ a b c, cmp a b ≤ 0 → cmp b c ≤ 0 → cmp a c ≤ 0)
    (l : List α) :
    (jsSortBy cmp l).Pairwise fun a b => cmp a b ≤ 0 := by
  induction l with
  | nil => simp [jsSortBy]
  | cons x xs ih => exact jsInsert_pairwise cmp htot htrans x (jsSortBy cmp xs) ih

theorem filter_jsInsert (cmp : α → α → Int) (p : α → Bool)
    (hp : ∀ a b, p a = true → p b = true → cmp a b ≤ 0)
    (x : α) (l : List α) :
    (jsInsert cmp x l).filter p = if p x then x :: l.filter p else l.filter p := by
  induction l with
  | nil =>
    by_cases hx : p x <;> simp [jsInsert, List.filter, hx]
  | cons y ys ih =>
    by_cases hxy : cmp x y ≤ 0
    · by_cases hx : p x <;> simp [jsInsert, hxy, List.filter, hx]
    · simp only [jsInsert, hxy, if_false]
      by_cases hx : p x
      · by_cases hy : p y
        · exact absurd (hp x y hx hy) hxy
        · simp [List.filter, hy, ih, hx]
      · by_cases hy : p y <;> simp [List.filter, hy, ih, hx]

theorem filter_jsSortBy (cmp : α → α → Int) (p : α → Bool)
    (hp : ∀ a b, p a = true → p b = true → cmp a b ≤ 0)
    (l : List α) :
    (jsSortBy cmp l).filter p = l.filter p := by
  induction l with
  | nil => simp [jsSortBy]
  | cons x xs ih =>
    rw [jsSortBy, filter_jsInsert cmp p hp]
    by_cases hx : p x <;> simp [List.filter, hx, ih]

theorem lexCompareNat_self (l : List Nat) : lexCompareNat l l = 0 := by
  induction l with
  | nil => rfl
  | cons a as ih => simp [lexCompareNat, ih]

theorem lexCompareNat_antisymm (a b : List Nat) :
    lexCompareNat b a = -lexCompareNat a b := by
  induction a generalizing b with
  | nil => cases b <;> simp [lexCompareNat]
  | cons x xs ih =>
    cases b with
    | nil => simp [lexCompareNat]
    | cons y ys =>
      rcases Nat.lt_trichotomy x y with h | h | h
      · simp [lexCompareNat, h, Nat.lt_asymm h, Nat.ne_of_lt h]
      · simp [lexCompareNat, h, Nat.lt_irrefl, ih]
      · simp [lexCompareNat, h, Nat.lt_asymm h, Nat.ne_of_lt h]

theorem lexCompareNat_trans (a b c : List Nat)
    (h1 : lexCompareNat a b ≤ 0) (h2 : lexCompareNat b c ≤ 0) :
    lexCompareNat a c ≤ 0 := by
  induction a generalizing b c with
  | nil => cases c <;> simp [lexCompareNat]
  | cons x xs ih =>
    cases b with
    | nil => simp [lexCompareNat] at h1
    | cons y ys =>
      cases c with
      | nil => simp [lexCompareNat] at h2
      | cons z zs =>
        rcases Nat.lt_trichotomy x y with hxy | hxy | hxy
        · rcases Nat.lt_trichotomy y z with hyz | hyz | hyz
          · have hxz : x < z := Nat.lt_trans hxy hyz
            simp [lexCompareNat, hxz]
          · have hxz : x < z := hyz ▸ hxy
            simp [lexCompareNat, hxz]
          · simp [lexCompareNat, Nat.lt_asymm hyz, hyz] at h2
        · rcases Nat.lt_trichotomy y z with hyz | hyz | hyz
          · have hxz : x < z := hxy ▸ hyz
            simp [lexCompareNat, hxz]
          · have hxz : x = z := hxy.trans hyz
            simp only [lexCompareNat, hxy, Nat.lt_irrefl, if_false] at h1
            simp only [lexCompareNat, hyz, Nat.lt_irrefl, if_false] at h2
            simp only [lexCompareNat, hxz, Nat.lt_irrefl, if_false]
            exact ih ys zs h1 h2
          · simp [lexCompareNat, Nat.lt_asymm hyz, hyz] at h2
        · simp [lexCompareNat, Nat.lt_asymm hxy, hxy] at h1

theorem lexCompareNat_eq_zero_iff (a b : List Nat) :
    lexCompareNat a b = 0 ↔ a = b := by
  induction a generalizing b with
  | nil => cases b <;> simp [lexCompareNat]
  | cons x xs ih =>
    cases b with
    | nil => simp [lexCompareNat]
    | cons y ys =>
      rcases Nat.lt_trichotomy x y with h | h | h
      · simp [lexCompareNat, h, Nat.ne_of_lt h]
      · simp [lexCompareNat, h, Nat.lt_irrefl, ih]
      · simp [lexCompareNat, h, Nat.lt_asymm h, (Nat.ne_of_lt h).symm]

theorem localeCompare_self (a : String) : localeCompare a a = 0 := by
  simp [localeCompare, lexCompareNat_self]

theorem localeCompare_flip (a b : String) (h : ¬ localeCompare a b ≤ 0) :
    localeCompare b a ≤ 0 := by
  unfold localeCompare at h ⊢
  rw [lexCompareNat_antisymm (lowerKey a) (lowerKey b),
    lexCompareNat_antisymm (caseKey a) (caseKey b)]
  by_cases hp : lexCompareNat (lowerKey a) (lowerKey b) = 0 <;>
    simp [hp] at h ⊢ <;> omega

theorem localeCompare_le_trans (a b c : String)
    (h1 : localeCompare a b ≤ 0) (h2 : localeCompare b c ≤ 0) :
    localeCompare a c ≤ 0 := by
  unfold localeCompare at h1 h2 ⊢
  by_cases hab : lexCompareNat (lowerKey a) (lowerKey b) = 0 <;>
    by_cases hbc : lexCompareNat (lowerKey b) (lowerKey c) = 0
  · have e1 : lowerKey a = lowerKey b := (lexCompareNat_eq_zero_iff _ _).mp hab
    have e2 : lowerKey b = lowerKey c := (lexCompareNat_eq_zero_iff _ _).mp hbc
    simp only [hab, if_true] at h1
    simp only [hbc, if_true] at h2
    rw [e1, e2]
    simp only [lexCompareNat_self, if_true]
    exact lexCompareNat_trans _ _ _ h1 h2
  · have e1 : lowerKey a = lowerKey b := (lexCompareNat_eq_zero_iff _ _).mp hab
    simp only [hbc, if_false] at h2
    rw [e1]
    simp only [hbc, if_false]
    exact h2
  · have e2 : lowerKey b = lowerKey c := (lexCompareNat_eq_zero_iff _ _).mp hbc
    simp only [hab, if_false] at h1
    rw [← e2]
    simp only [hab, if_false]
    exact h1
  · simp only [hab, if_false] at h1
    simp only [hbc, if_false] at h2
    have hac := lexCompareNat_trans _ _ _ h1 h2
    have hne : ¬ lexCompareNat (lowerKey a) (lowerKey c) = 0 := by
      intro h0
      have e : lowerKey a = lowerKey c := (lexCompareNat_eq_zero_iff _ _).mp h0
      rw [e, lexCompareNat_antisymm (lowerKey b) (lowerKey c)] at h1
      omega
    simp only [hne, if_false]
    exact hac

/-- C1: the operation surface `WatchlistProvider` exposes (the context
`value` object) contains no clear operation at all — neither `clearAll` nor
the `clearWatchlist` member that the repository's own
`specs/WATCHLIST_SPEC.md` declares in `WatchlistContextType` — even though
the Store's `clearWatchlistStorage` (imported by the provider but never
called) does remove the persisted entry when invoked on healthy storage. -/
theorem facade_has_no_clear_operation :
    ("clearAll" ∉ watchlistContextValueKeys) ∧
    ("clearWatchlist" ∉ watchlistContextValueKeys) ∧
    clearWatchlistStorage ⟨true, some (.jsonText (encodeItems [iFightClub]))⟩ =
      ⟨true, none⟩ :=
  ⟨by decide, by decide, rfl⟩

/-- C3 (amended): `loadWatchlist` returns an empty collection when the entry
is absent and when the stored value is not parseable JSON at all, raising no
exception; but a stored value that does parse as JSON is returned as-is,
without any validation of the record shape. -/
theorem load_corruption_recovery_amended :
    loadWatchlist ⟨true, none⟩ = JSValue.arr [] ∧
    (∀ s : String, loadWatchlist ⟨true, some (.badText s)⟩ = JSValue.arr []) ∧
    (∀ v : JSValue, loadWatchlist ⟨true, some (.jsonText v)⟩ = v) :=
  ⟨rfl, fun _ => rfl, fun _ => rfl⟩

/-- C3 (counterexample): the stored text `42` parses as JSON but is not the
expected record shape, yet `loadWatchlist` does not return an empty
Collection — it returns the parsed number. -/
theorem load_shape_validation_counterexample :
    decodeItems (JSValue.num 42) = none ∧
    loadWatchlist ⟨true, some (.jsonText (JSValue.num 42))⟩ ≠ JSValue.arr [] := by
  refine ⟨rfl, fun h => ?_⟩
  simp [loadWatchlist] at h

/-- C4: adding a candidate whose id already exists leaves the collection
entirely unchanged; in particular adding the same candidate twice from the
empty collection yields a single item whose `addedAt` is the time of the
first call. -/
theorem add_idempotent :
    (∀ (prev : List WatchlistItem) (movie : IMovie) (k : MediaType) (now : Int),
      isInWatchlist prev movie.id = true → addToWatchlist movie k now prev = prev) ∧
    (∀ (movie : IMovie) (k : MediaType) (t1 t2 : Int),
      addToWatchlist movie k t2 (addToWatchlist movie k t1 []) =
        addToWatchlist movie k t1 [] ∧
      getCount (addToWatchlist movie k t2 (addToWatchlist movie k t1 [])) = 1 ∧
      (addToWatchlist movie k t2 (addToWatchlist movie k t1 [])).map
        (fun it => it.addedAt) = [t1]) := by
  have h1 : ∀ (prev : List WatchlistItem) (movie : IMovie) (k : MediaType) (now : Int),
      isInWatchlist prev movie.id = true → addToWatchlist movie k now prev = prev := by
    intro prev movie k now h
    unfold isInWatchlist at h
    simp [addToWatchlist, h]
  refine ⟨h1, ?_⟩
  intro movie k t1 t2
  have hfirst : addToWatchlist movie k t1 [] = [mkWatchlistItem movie k t1] := by
    simp [addToWatchlist]
  have hmem : isInWatchlist (addToWatchlist movie k t1 []) movie.id = true := by
    rw [hfirst]
    simp [isInWatchlist, mkWatchlistItem]
  have hsecond := h1 (addToWatchlist movie k t1 []) movie k t2 hmem
  refine ⟨hsecond, ?_, ?_⟩
  · rw [hsecond, hfirst]
    rfl
  · rw [hsecond, hfirst]
    rfl

/-- C4 (witness): concrete instantiation — re-adding Fight Club is a no-op,
and a double add from empty keeps the first timestamp. -/
theorem add_idempotent_witness :
    addToWatchlist mFightClub MediaType.movie 9 [iFightClub] = [iFightClub] ∧
    (addToWatchlist mFightClub MediaType.movie 9
      (addToWatchlist mFightClub MediaType.movie 3 [])).map (fun it => it.addedAt) = [3] :=
  ⟨add_idempotent.1 [iFightClub] mFightClub MediaType.movie 9 (by decide),
   (add_idempotent.2 mFightClub MediaType.movie 3 9).2.2⟩

/-- C6: adding a candidate whose id is not yet present prepends the newly
built item; the pre-existing items and their relative order are untouched
(the result's tail is exactly the previous list). -/
theorem add_prepends_fresh (prev : List WatchlistItem) (movie : IMovie)
    (k : MediaType) (now : Int) (h : isInWatchlist prev movie.id = false) :
    addToWatchlist movie k now prev = mkWatchlistItem movie k now :: prev ∧
    (addToWatchlist movie k now prev).head? = some (mkWatchlistItem movie k now) ∧
    (addToWatchlist movie k now prev).tail = prev ∧
    (addToWatchlist movie k now prev).length = prev.length + 1 := by
  unfold isInWatchlist at h
  simp [addToWatchlist, h]

/-- C6 (witness): concrete instantiation — adding Fight Club on top of a
one-item list prepends it and leaves the old item in place. -/
theorem add_prepends_fresh_witness :
    addToWatchlist mFightClub MediaType.movie 9 [iBreakingBad] =
      mkWatchlistItem mFightClub MediaType.movie 9 :: [iBreakingBad] ∧
    (addToWatchlist mFightClub MediaType.movie 9 [iBreakingBad]).head? =
      some (mkWatchlistItem mFightClub MediaType.movie 9) ∧
    (addToWatchlist mFightClub MediaType.movie 9 [iBreakingBad]).tail = [iBreakingBad] ∧
    (addToWatchlist mFightClub MediaType.movie 9 [iBreakingBad]).length =
      [iBreakingBad].length + 1 :=
  add_prepends_fresh [iBreakingBad] mFightClub MediaType.movie 9 (by decide)

/-- C9 (amended): the stored item's label is the candidate's primary
`original_title` field when that field is a non-empty string, otherwise the
fallback `name` field (the JS `||` falls back on the empty string, not only
on an absent field); the resulting label is non-empty provided at least one
of the two fields is non-empty — with both fields empty the stored label is
the empty string. -/
theorem label_resolution_amended (movie : IMovie) (k : MediaType) (now : Int)
    (prev : List WatchlistItem) :
    (movie.original_title ≠ "" →
      (mkWatchlistItem movie k now).title = movie.original_title) ∧
    (movie.original_title = "" →
      (mkWatchlistItem movie k now).title = movie.name) ∧
    ((movie.original_title ≠ "" ∨ movie.name ≠ "") →
      (mkWatchlistItem movie k now).title ≠ "") ∧
    (isInWatchlist prev movie.id = false →
      (addToWatchlist movie k now prev).head? = some (mkWatchlistItem movie k now)) := by
  refine ⟨?_, ?_, ?_, ?_⟩
  · intro h
    simp [mkWatchlistItem, h]
  · intro h
    simp [mkWatchlistItem, h]
  · rintro (h | h) <;> by_cases h0 : movie.original_title = "" <;>
      simp [mkWatchlistItem, h0] <;> first | exact h | simp_all
  · intro h
    unfold isInWatchlist at h
    simp [addToWatchlist, h]

/-- C9 (counterexample): with both title fields empty, the stored item's
label is the empty string — the claim that every stored label is non-empty
fails. -/
theorem label_nonempty_counterexample :
    (addToWatchlist mNoLabels MediaType.movie 5 []).map (fun it => it.title) = [""] ∧
    ¬ (∀ it ∈ addToWatchlist mNoLabels MediaType.movie 5 [], it.title ≠ "") := by
  refine ⟨by decide, fun h => ?_⟩
  exact h (mkWatchlistItem mNoLabels MediaType.movie 5) (by decide) (by decide)

/-- C9 (witness): concrete instantiation — Fight Club resolves to its primary
title, a descriptor with empty primary resolves to the fallback name, both
labels are non-empty, and the resolved item is what a fresh add stores. -/
theorem label_resolution_amended_witness :
    (mkWatchlistItem mFightClub MediaType.movie 7).title = mFightClub.original_title ∧
    (mkWatchlistItem mOnlyName MediaType.movie 7).title = mOnlyName.name ∧
    (mkWatchlistItem mOnlyName MediaType.movie 7).title ≠ "" ∧
    (addToWatchlist mFightClub MediaType.movie 7 []).head? =
      some (mkWatchlistItem mFightClub MediaType.movie 7) :=
  ⟨(label_resolution_amended mFightClub MediaType.movie 7 []).1 (by decide),
   (label_resolution_amended mOnlyName MediaType.movie 7 []).2.1 (by decide),
   (label_resolution_amended mOnlyName MediaType.movie 7 []).2.2.1 (Or.inr (by decide)),
   (label_resolution_amended mFightClub MediaType.movie 7 []).2.2.2 (by decide)⟩

/-- C5: both `addToWatchlist` and `removeFromWatchlist` preserve id
uniqueness, so every collection reachable from the empty collection by add
and remove operations has pairwise-distinct item ids. -/
theorem watchlist_ids_nodup :
    (∀ (s : List WatchlistItem) (movie : IMovie) (k : MediaType) (now : Int),
      ((s.map fun it => it.id).Nodup) →
      (((addToWatchlist movie k now s).map fun it => it.id).Nodup)) ∧
    (∀ (s : List WatchlistItem) (i : String),
      ((s.map fun it => it.id).Nodup) →
      (((removeFromWatchlist i s).map fun it => it.id).Nodup)) ∧
    (∀ s : List WatchlistItem, ReachableWatchlist s →
      ((s.map fun it => it.id).Nodup)) := by
  have hadd : ∀ (s : List WatchlistItem) (movie : IMovie) (k : MediaType) (now : Int),
      ((s.map fun it => it.id).Nodup) →
      (((addToWatchlist movie k now s).map fun it => it.id).Nodup) := by
    intro s movie k now hn
    by_cases h : s.any fun item => item.id == movie.id
    · simpa [addToWatchlist, h] using hn
    · have hne : ∀ it ∈ s, ¬ it.id = movie.id := by
        intro it hit
        intro heq
        have : (s.any fun item => item.id == movie.id) = true :=
          List.any_eq_true.mpr ⟨it, hit, beq_iff_eq.mpr heq⟩
        exact absurd this h
      have hnotmem : movie.id ∉ s.map fun it => it.id := by
        intro hmem
        obtain ⟨it, hit, hid⟩ := List.mem_map.mp hmem
        exact hne it hit hid
      simp only [addToWatchlist, h, if_false, List.map_cons]
      exact List.Nodup.cons (by simpa [mkWatchlistItem] using hnotmem) hn
  have hremove : ∀ (s : List WatchlistItem) (i : String),
      ((s.map fun it => it.id).Nodup) →
      (((removeFromWatchlist i s).map fun it => it.id).Nodup) := by
    intro s i hn
    have hsub : List.Sublist ((removeFromWatchlist i s).map fun it => it.id)
        (s.map fun it => it.id) :=
      List.Sublist.map _ (List.filter_sublist s)
    exact hn.sublist hsub
  refine ⟨hadd, hremove, ?_⟩
  intro s h
  induction h with
  | empty => simp
  | add movie k now _ ih => exact hadd _ movie k now ih
  | remove i _ ih => exact hremove _ i ih

/-- C5 (witness): concrete instantiation — uniqueness is preserved by one
concrete add and one concrete remove, and holds of the reachable state built
by one add from empty. -/
theorem watchlist_ids_nodup_witness :
    (((addToWatchlist mFightClub MediaType.movie 9 [iBreakingBad]).map
        fun it => it.id).Nodup) ∧
    (((removeFromWatchlist "550" [iFightClub, iBreakingBad]).map
        fun it => it.id).Nodup) ∧
    (((addToWatchlist mFightClub MediaType.movie 1 []).map fun it => it.id).Nodup) :=
  ⟨watchlist_ids_nodup.1 [iBreakingBad] mFightClub MediaType.movie 9 (by decide),
   watchlist_ids_nodup.2.1 [iFightClub, iBreakingBad] "550" (by decide),
   watchlist_ids_nodup.2.2 _
     (ReachableWatchlist.add mFightClub MediaType.movie 1 ReachableWatchlist.empty)⟩

theorem decodeItem_encodeItem (it : WatchlistItem) : decodeItem (encodeItem it) = some it := by
  obtain ⟨i, k, t, p, n⟩ := it
  cases k <;> rfl

theorem decodeItems_encodeItems (c : List WatchlistItem) :
    decodeItems (encodeItems c) = some c := by
  have go : ∀ l : List WatchlistItem, decodeItemList (l.map encodeItem) = some l := by
    intro l
    induction l with
    | nil => rfl
    | cons it its ih => simp [decodeItemList, decodeItem_encodeItem, ih]
  simpa [encodeItems, decodeItems] using go c

/-- C8: on healthy storage, loading right after saving a collection `c`
yields exactly the JSON serialization of `c`, and that serialization decodes
back to `c` itself — same ids, same field values, same order. -/
theorem persistence_round_trip (c : List WatchlistItem) (σ : StorageState)
    (h : σ.healthy = true) :
    loadWatchlist (saveWatchlist c σ) = encodeItems c ∧
    decodeItems (encodeItems c) = some c := by
  refine ⟨?_, decodeItems_encodeItems c⟩
  simp [loadWatchlist, saveWatchlist, h]

/-- C8 (witness): the round trip at a concrete one-item collection on
initially empty healthy storage. -/
theorem persistence_round_trip_witness :
    loadWatchlist (saveWatchlist [iFightClub] ⟨true, none⟩) = encodeItems [iFightClub] ∧
    decodeItems (encodeItems [iFightClub]) = some [iFightClub] :=
  persistence_round_trip [iFightClub] ⟨true, none⟩ rfl

/-- C2: immediately after an add or remove interaction, the Facade reads
(`isInWatchlist`, `getCount`, `getFiltered`) computed on the provider state
reflect the mutation — membership of the added id is true, membership of the
removed id is false, the count and filtered views are those of the updated
in-memory list — and every read depends only on the in-memory items, never
on the storage component, so a pending or failed persistence write cannot
affect it. -/
theorem read_after_write_consistency (st : ProviderState) (movie : IMovie)
    (k : MediaType) (now : Int) (i : String) (f : WatchFilter)
    (σ₁ σ₂ : StorageState) (items : List WatchlistItem) (j : String) :
    isInWatchlistS (addCmd movie k now st) movie.id = true ∧
    getCountS (addCmd movie k now st) =
      (if isInWatchlistS st movie.id then getCountS st else getCountS st + 1) ∧
    isInWatchlistS (removeCmd i st) i = false ∧
    getCountS (removeCmd i st) = (st.items.filter fun it => it.id != i).length ∧
    getFilteredS (removeCmd i st) f = (getFilteredS st f).filter (fun it => it.id != i) ∧
    getFilteredS (addCmd movie k now st) .all = addToWatchlist movie k now st.items ∧
    isInWatchlistS ⟨items, σ₁⟩ j = isInWatchlistS ⟨items, σ₂⟩ j ∧
    getCountS ⟨items, σ₁⟩ = getCountS ⟨items, σ₂⟩ ∧
    getFilteredS ⟨items, σ₁⟩ f = getFilteredS ⟨items, σ₂⟩ f := by
  refine ⟨?_, ?_, ?_, rfl, ?_, rfl, rfl, rfl, rfl⟩
  · by_cases h : st.items.any fun item => item.id == movie.id
    · simp [isInWatchlistS, addCmd, isInWatchlist, addToWatchlist, h]
    · simp [isInWatchlistS, addCmd, isInWatchlist, addToWatchlist, h, mkWatchlistItem]
  · by_cases h : st.items.any fun item => item.id == movie.id
    · simp [getCountS, addCmd, getCount, addToWatchlist, isInWatchlistS, isInWatchlist, h]
    · simp [getCountS, addCmd, getCount, addToWatchlist, isInWatchlistS, isInWatchlist, h]
  · simp only [isInWatchlistS, removeCmd, isInWatchlist, removeFromWatchlist]
    rw [List.any_eq_false]
    intro it hit
    have := (List.mem_filter.mp hit).2
    simp only [bne_iff_ne, ne_eq] at this
    simpa using this
  · cases f with
    | all => rfl
    | movie =>
      simp only [getFilteredS, removeCmd, getFiltered, removeFromWatchlist,
        List.filter_filter]
      exact List.filter_congr fun a _ => Bool.and_comm _ _
    | tv =>
      simp only [getFilteredS, removeCmd, getFiltered, removeFromWatchlist,
        List.filter_filter]
      exact List.filter_congr fun a _ => Bool.and_comm _ _

/-- C7 (counterexample): the titles "Apple" and "apple" have equal
case-insensitive sort keys, yet `getSorted` with the `"title"` mode does not
preserve their input order: the default-locale `localeCompare` distinguishes
case at equal base letters (lowercase before uppercase), so the input
`[Apple, apple]` is reordered to `[apple, Apple]`. -/
theorem title_sort_case_tie_counterexample :
    lowerKey iApple.title = lowerKey iLowerApple.title ∧
    localeCompare iApple.title iLowerApple.title = 1 ∧
    (getSorted [iApple, iLowerApple] .title).map (fun it => it.title) =
      ["apple", "Apple"] ∧
    (getSorted [iApple, iLowerApple] .title).map (fun it => it.title) ≠
      ["Apple", "apple"] := by
  refine ⟨by decide, by decide, by decide, by decide⟩

/-- C7 (amended): `getSorted` orders by `addedAt` descending for
`"date-new"`, by `addedAt` ascending for `"date-old"`, and by the
default-locale comparison of `title` ascending for `"title"` — primarily
case-insensitive lexicographic, but with case significant as a tie-break at
equal base letters (lowercase before uppercase), so labels that differ only
in case are ordered by case rather than keeping input order.  Each result is
a permutation of the input; items with equal `addedAt` (for the date modes)
or fully identical labels (for the title mode) keep their relative input
order (stability, expressed as preservation of every equal-key subsequence).
The concrete vectors of the specification hold: `addedAt` values
`[100, 300, 200]` sorted newest-first give `[300, 200, 100]`, and labels
`["Banana", "apple", "Cherry"]` sorted alphabetically give
`["apple", "Banana", "Cherry"]`. -/
theorem getSorted_spec_amended (items : List WatchlistItem) (t : Int) (s : String) :
    ((getSorted items .dateNew).Pairwise fun a b => b.addedAt ≤ a.addedAt) ∧
    ((getSorted items .dateOld).Pairwise fun a b => a.addedAt ≤ b.addedAt) ∧
    ((getSorted items .title).Pairwise fun a b => localeCompare a.title b.title ≤ 0) ∧
    List.Perm (getSorted items .dateNew) items ∧
    List.Perm (getSorted items .dateOld) items ∧
    List.Perm (getSorted items .title) items ∧
    (getSorted items .dateNew).filter (fun it => it.addedAt == t) =
      items.filter (fun it => it.addedAt == t) ∧
    (getSorted items .dateOld).filter (fun it => it.addedAt == t) =
      items.filter (fun it => it.addedAt == t) ∧
    (getSorted items .title).filter (fun it => it.title == s) =
      items.filter (fun it => it.title == s) ∧
    (getSorted [⟨"a", .movie, "A", "", 100⟩, ⟨"b", .movie, "B", "", 300⟩,
      ⟨"c", .movie, "C", "", 200⟩] .dateNew).map (fun it => it.addedAt) =
      [300, 200, 100] ∧
    (getSorted [⟨"x", .movie, "Banana", "", 1⟩, ⟨"y", .movie, "apple", "", 2⟩,
      ⟨"z", .movie, "Cherry", "", 3⟩] .title).map (fun it => it.title) =
      ["apple", "Banana", "Cherry"] := by
  have htotN : ∀ a b : WatchlistItem,
      ¬ b.addedAt - a.addedAt ≤ 0 → a.addedAt - b.addedAt ≤ 0 := by
    intro a b h
    omega
  have htransN : ∀ a b c : WatchlistItem,
      b.addedAt - a.addedAt ≤ 0 → c.addedAt - b.addedAt ≤ 0 →
      c.addedAt - a.addedAt ≤ 0 := by
    intro a b c h1 h2
    omega
  have htotO : ∀ a b : WatchlistItem,
      ¬ a.addedAt - b.addedAt ≤ 0 → b.addedAt - a.addedAt ≤ 0 := by
    intro a b h
    omega
  have htransO : ∀ a b c : WatchlistItem,
      a.addedAt - b.addedAt ≤ 0 → b.addedAt - c.addedAt ≤ 0 →
      a.addedAt - c.addedAt ≤ 0 := by
    intro a b c h1 h2
    omega
  have htotT : ∀ a b : WatchlistItem,
      ¬ localeCompare a.title b.title ≤ 0 → localeCompare b.title a.title ≤ 0 := by
    intro a b h
    exact localeCompare_flip a.title b.title h
  have htransT : ∀ a b c : WatchlistItem,
      localeCompare a.title b.title ≤ 0 → localeCompare b.title c.title ≤ 0 →
      localeCompare a.title c.title ≤ 0 := by
    intro a b c h1 h2
    exact localeCompare_le_trans a.title b.title c.title h1 h2
  have hpN : ∀ a b : WatchlistItem,
      (a.addedAt == t) = true → (b.addedAt == t) = true →
      b.addedAt - a.addedAt ≤ 0 := by
    intro a b h1 h2
    have e1 : a.addedAt = t := by simpa using h1
    have e2 : b.addedAt = t := by simpa using h2
    omega
  have hpO : ∀ a b : WatchlistItem,
      (a.addedAt == t) = true → (b.addedAt == t) = true →
      a.addedAt - b.addedAt ≤ 0 := by
    intro a b h1 h2
    have e1 : a.addedAt = t := by simpa using h1
    have e2 : b.addedAt = t := by simpa using h2
    omega
  have hpT : ∀ a b : WatchlistItem,
      (a.title == s) = true → (b.title == s) = true →
      localeCompare a.title b.title ≤ 0 := by
    intro a b h1 h2
    have e1 : a.title = s := by simpa using h1
    have e2 : b.title = s := by simpa using h2
    rw [e1, e2, localeCompare_self]
  refine ⟨?_, ?_, ?_, ?_, ?_, ?_, ?_, ?_, ?_, by decide, by decide⟩
  · exact (jsSortBy_pairwise _ htotN htransN items).imp fun h => Int.le_of_sub_nonpos h
  · exact (jsSortBy_pairwise _ htotO htransO items).imp fun h => Int.le_of_sub_nonpos h
  · exact jsSortBy_pairwise _ htotT htransT items
  · exact jsSortBy_perm _ items
  · exact jsSortBy_perm _ items
  · exact jsSortBy_perm _ items
  · exact filter_jsSortBy _ _ hpN items
  · exact filter_jsSortBy _ _ hpO items
  · exact filter_jsSortBy _ _ hpT items
